import Mathlib

/-!
# Verification of the CADJPY/NZDJPY pairs-trading monitor

Shallow embedding of `src/cadjpy_nzdjpy_monitor.py` (class `ForexPairsMonitor`).

Numeric modelling. The Python code computes with IEEE floats, with numpy
warnings suppressed, so a division by zero silently yields `inf`/`-inf`/`nan`.
We model the float values flowing through the signal stage exactly, by the type
`PFloat`: `nan`, the two infinities, and finite values `fin d v` denoting the
real number `d / √v` with `d v : ℚ` and `0 < v`.  This form is closed under
everything the code does to a z-score (the z-score is
`(spread - mean) / std` where `std = √variance` and `spread`, `mean`,
`variance` are rational in the exact model; plain rationals embed as
`fin q 1`).  Comparisons between such values are decided exactly through the
signed square: `d₁/√v₁ ≤ d₂/√v₂ ↔ d₁*|d₁|*v₂ ≤ d₂*|d₂|*v₁` for positive
`v₁ v₂`, since `x ↦ x * |x|` is strictly monotone; the theorem
`PFloat.fle_correct` below proves this decision procedure agrees with the
real-number order.  IEEE comparison semantics for the special values
(every comparison with `nan` is false) is encoded in the match arms.
-/

/-- Exact model of the IEEE float values produced by the monitor: `nan`,
`inf`, `ninf`, or a finite value `fin d v` denoting `d / √v` (with `0 < v`
in every value the pipeline builds; `fin q 1` is the rational `q`). -/
inductive PFloat where
  | nan : PFloat
  | inf : PFloat
  | ninf : PFloat
  | fin : ℚ → ℚ → PFloat
deriving DecidableEq, Repr

/-- Float `<=` (IEEE semantics: any comparison with `nan` is false).  On
finite values `d₁/√v₁ ≤ d₂/√v₂` is decided by cross-multiplied signed
squares, exact for the positive `v`s the pipeline produces
(`PFloat.fle_correct`). -/
def PFloat.fle : PFloat → PFloat → Bool
  | .nan, _ => false
  | _, .nan => false
  | .ninf, _ => true
  | _, .ninf => false
  | _, .inf => true
  | .inf, _ => false
  | .fin d₁ v₁, .fin d₂ v₂ => decide (d₁ * |d₁| * v₂ ≤ d₂ * |d₂| * v₁)

/-- Float `<` (IEEE semantics: any comparison with `nan` is false). -/
def PFloat.flt : PFloat → PFloat → Bool
  | .nan, _ => false
  | _, .nan => false
  | _, .ninf => false
  | .ninf, _ => true
  | .inf, _ => false
  | _, .inf => true
  | .fin d₁ v₁, .fin d₂ v₂ => decide (d₁ * |d₁| * v₂ < d₂ * |d₂| * v₁)

/-- Float `>=`. -/
def PFloat.fge (a b : PFloat) : Bool := PFloat.fle b a

/-- Float `>`. -/
def PFloat.fgt (a b : PFloat) : Bool := PFloat.flt b a

/-- Float `abs`. -/
def PFloat.fabs : PFloat → PFloat
  | .nan => .nan
  | .inf => .inf
  | .ninf => .inf
  | .fin d v => .fin |d| v

/-- Python's `min x y` (`y` if `y < x` else `x`); on floats, `<` is the
IEEE comparison. -/
def PFloat.pmin (a b : PFloat) : PFloat := if PFloat.flt b a then b else a

/-- Division of a float by a positive rational constant (used only for the
`/ 3.0` in position sizing). -/
def PFloat.pdivq : PFloat → ℚ → PFloat
  | .nan, _ => .nan
  | .inf, _ => .inf
  | .ninf, _ => .ninf
  | .fin d v, c => .fin (d / c) v

/-- `x ↦ x * |x|` is strictly monotone on `ℚ`. -/
lemma signedSq_lt_iff (a b : ℚ) : a * |a| < b * |b| ↔ a < b := by
  constructor
  · intro h
    by_contra hba
    push_neg at hba
    rcases le_or_lt 0 b with hb | hb
    · have ha : 0 ≤ a := le_trans hb hba
      rw [abs_of_nonneg ha, abs_of_nonneg hb] at h
      nlinarith
    · rcases le_or_lt 0 a with ha | ha
      · rw [abs_of_nonneg ha, abs_of_neg hb] at h
        nlinarith
      · rw [abs_of_neg ha, abs_of_neg hb] at h
        nlinarith
  · intro h
    rcases le_or_lt 0 a with ha | ha
    · have hb : 0 < b := lt_of_le_of_lt ha h
      rw [abs_of_nonneg ha, abs_of_pos hb]
      nlinarith
    · rcases le_or_lt 0 b with hb | hb
      · rw [abs_of_neg ha, abs_of_nonneg hb]
        nlinarith
      · rw [abs_of_neg ha, abs_of_neg hb]
        nlinarith

lemma signedSq_le_iff (a b : ℚ) : a * |a| ≤ b * |b| ↔ a ≤ b := by
  rw [← not_lt, ← not_lt, not_iff_not, signedSq_lt_iff]

/-- The signed-square comparison on `fin` values with unit second component
is the rational order: `fle (fin a 1) (fin b 1) = decide (a ≤ b)`. -/
lemma fle_fin_one (a b : ℚ) :
    PFloat.fle (.fin a 1) (.fin b 1) = decide (a ≤ b) := by
  simp [PFloat.fle, signedSq_le_iff]

lemma flt_fin_one (a b : ℚ) :
    PFloat.flt (.fin a 1) (.fin b 1) = decide (a < b) := by
  simp [PFloat.flt, signedSq_lt_iff]

/-- The real version of `signedSq_le_iff`. -/
lemma signedSq_le_iff_real (a b : ℝ) : a * |a| ≤ b * |b| ↔ a ≤ b := by
  constructor
  · intro h
    by_contra hba
    push_neg at hba
    rcases le_or_lt 0 b with hb | hb
    · have ha : 0 ≤ a := le_trans hb (le_of_lt hba)
      rw [abs_of_nonneg ha, abs_of_nonneg hb] at h
      nlinarith
    · rcases le_or_lt 0 a with ha | ha
      · rw [abs_of_nonneg ha, abs_of_neg hb] at h
        nlinarith
      · rw [abs_of_neg ha, abs_of_neg hb] at h
        nlinarith
  · intro h
    rcases le_or_lt 0 a with ha | ha
    · have hb : 0 ≤ b := le_trans ha h
      rw [abs_of_nonneg ha, abs_of_nonneg hb]
      nlinarith
    · rcases le_or_lt 0 b with hb | hb
      · rw [abs_of_neg ha, abs_of_nonneg hb]
        nlinarith
      · rw [abs_of_neg ha, abs_of_neg hb]
        nlinarith

/-- Faithfulness of the finite-value comparison: for positive `v₁ v₂`, the
cross-multiplied signed-square decision procedure in `PFloat.fle` agrees with
the real-number order on the denoted values `d₁ / √v₁` and `d₂ / √v₂`. -/
theorem PFloat.fle_correct (d₁ v₁ d₂ v₂ : ℚ) (h₁ : 0 < v₁) (h₂ : 0 < v₂) :
    (PFloat.fle (.fin d₁ v₁) (.fin d₂ v₂) = true) ↔
      ((d₁ : ℝ) / Real.sqrt (v₁ : ℝ) ≤ (d₂ : ℝ) / Real.sqrt (v₂ : ℝ)) := by
  have h₁R : (0 : ℝ) < (v₁ : ℝ) := by exact_mod_cast h₁
  have h₂R : (0 : ℝ) < (v₂ : ℝ) := by exact_mod_cast h₂
  have key : ∀ (d v : ℚ), 0 < v →
      ((d : ℝ) / Real.sqrt (v : ℝ)) * |(d : ℝ) / Real.sqrt (v : ℝ)|
        = (d : ℝ) * |(d : ℝ)| / (v : ℝ) := by
    intro d v hv
    have hvR : (0 : ℝ) < (v : ℝ) := by exact_mod_cast hv
    have hs : (0 : ℝ) < Real.sqrt (v : ℝ) := Real.sqrt_pos.mpr hvR
    have hsq : Real.sqrt (v : ℝ) * Real.sqrt (v : ℝ) = (v : ℝ) :=
      Real.mul_self_sqrt (le_of_lt hvR)
    rw [abs_div, abs_of_nonneg (le_of_lt hs), div_mul_div_comm, hsq]
  simp only [PFloat.fle, decide_eq_true_eq]
  rw [← signedSq_le_iff_real, key d₁ v₁ h₁, key d₂ v₂ h₂, div_le_div_iff₀ h₁R h₂R]
  constructor
  · intro h
    exact_mod_cast h
  · intro h
    exact_mod_cast h

/-- The discrete signal categories printed by `check_trading_signals`. -/
inductive Signal where
  | strongShort : Signal
  | strongLong : Signal
  | short : Signal
  | long : Signal
  | approachingShort : Signal
  | approachingLong : Signal
  | neutral : Signal
deriving DecidableEq, Repr

/-- `ForexPairsMonitor.check_trading_signals` (lines 159–197): the printed
signal category, as a function of the alert threshold (`self.alert_threshold`,
default `0.8`) and the z-score.  The source is an `if/elif` chain; each guard
is a float comparison, so a `nan` z-score falls through every branch. -/
def check_trading_signals (alert_threshold : ℚ) (zscore : PFloat) : Signal :=
  if PFloat.fge zscore (.fin 2 1) then .strongShort
  else if PFloat.fle zscore (.fin (-2) 1) then .strongLong
  else if PFloat.fge zscore (.fin 1 1) then .short
  else if PFloat.fle zscore (.fin (-1) 1) then .long
  else if PFloat.fge (PFloat.fabs zscore) (.fin alert_threshold 1) then
    (if PFloat.fgt zscore (.fin 0 1) then .approachingShort else .approachingLong)
  else .neutral

/-- The classification table of §4.3 of the spec, read literally off the
claim: thresholds `±2`, `±1` and `0.8`, boundaries closed on the signal
side, first match wins (spec side, for comparison with the code). -/
def specClassify (z : ℚ) : Signal :=
  if z ≥ 2 then .strongShort
  else if z ≤ -2 then .strongLong
  else if z ≥ 1 then .short
  else if z ≤ -1 then .long
  else if |z| ≥ 4/5 then (if 0 < z then .approachingShort else .approachingLong)
  else .neutral

example : check_trading_signals (4/5) (.fin 1 1) = .short := by
  norm_num [check_trading_signals, PFloat.fge, PFloat.fle]

example : check_trading_signals (4/5) (.fin 2 1) = .strongShort := by
  norm_num [check_trading_signals, PFloat.fge, PFloat.fle]

example : check_trading_signals (4/5) (.fin (4/5) 1) = .approachingShort := by
  have h : |(4/5 : ℚ)| = 4/5 := by
    rw [abs_of_nonneg]
    norm_num
  norm_num [check_trading_signals, PFloat.fge, PFloat.fle, PFloat.fgt, PFloat.flt,
    PFloat.fabs, h]

example : check_trading_signals (4/5) (.fin (-9/10) 1) = .approachingLong := by
  have h : |(-9/10 : ℚ)| = 9/10 := by
    rw [abs_of_nonpos]
    norm_num
    norm_num
  have h2 : |(4/5 : ℚ)| = 4/5 := by
    rw [abs_of_nonneg]
    norm_num
  have h3 : |(9/10 : ℚ)| = 9/10 := by
    rw [abs_of_nonneg]
    norm_num
  norm_num [check_trading_signals, PFloat.fge, PFloat.fle, PFloat.fgt, PFloat.flt,
    PFloat.fabs, h, h2, h3]

example : check_trading_signals (4/5) .nan = .neutral := by
  norm_num [check_trading_signals, PFloat.fge, PFloat.fle, PFloat.fabs]

/-- **C2.** For every real (finite) z-score, `check_trading_signals` with the
default alert threshold `0.8` realizes exactly the classification table of
§4.3, first match wins, boundaries closed on the signal side: `z ≥ 2` is
StrongShort, `z ≤ -2` StrongLong, then `z ≥ 1` Short (so `z = 1` is Short and
`z = 2` is StrongShort), `z ≤ -1` Long, then `|z| ≥ 0.8` ApproachingShort or
ApproachingLong by sign, else Neutral. -/
theorem check_trading_signals_matches_spec_table (z : ℚ) :
    check_trading_signals (4/5) (.fin z 1) = specClassify z := by
  simp only [check_trading_signals, specClassify, PFloat.fge, PFloat.fgt,
    PFloat.fabs, fle_fin_one, flt_fin_one, decide_eq_true_eq, ge_iff_le]

/-- `ForexPairsMonitor.generate_position_sizing` (lines 199–215): prints a
recommendation only when `abs(zscore) >= 1.0`; the multiplier is
`min(abs(zscore), 3.0) / 3.0`.  We return the printed multiplier
(`none` when no recommendation is printed). -/
def generate_position_sizing (zscore : PFloat) : Option PFloat :=
  if PFloat.fge (PFloat.fabs zscore) (.fin 1 1) then
    some (PFloat.pdivq (PFloat.pmin (PFloat.fabs zscore) (.fin 3 1)) 3)
  else none

/-- **C3.** A position-size recommendation is produced exactly when
`|z| ≥ 1`; its multiplier is `min |z| 3 / 3`; that multiplier is
monotonically non-decreasing in `|z|` on `[1, 3]`; and it equals `1`
whenever `|z| ≥ 3`. -/
theorem generate_position_sizing_spec :
    (∀ z : ℚ, (generate_position_sizing (.fin z 1)).isSome ↔ 1 ≤ |z|) ∧
    (∀ z : ℚ, 1 ≤ |z| →
      generate_position_sizing (.fin z 1) = some (.fin (min |z| 3 / 3) 1)) ∧
    (∀ a b : ℚ, 1 ≤ a → a ≤ b → b ≤ 3 → min a 3 / 3 ≤ min b 3 / 3) ∧
    (∀ z : ℚ, 3 ≤ |z| → generate_position_sizing (.fin z 1) = some (.fin 1 1)) := by
  have key : ∀ z : ℚ, 1 ≤ |z| →
      generate_position_sizing (.fin z 1) = some (.fin (min |z| 3 / 3) 1) := by
    intro z hz
    rcases le_or_lt |z| 3 with h3 | h3
    · simp [generate_position_sizing, PFloat.fge, PFloat.fabs, fle_fin_one,
        flt_fin_one, PFloat.pmin, PFloat.pdivq, hz, min_eq_left h3, not_lt.mpr h3]
    · simp [generate_position_sizing, PFloat.fge, PFloat.fabs, fle_fin_one,
        flt_fin_one, PFloat.pmin, PFloat.pdivq, hz, min_eq_right (le_of_lt h3), h3]
  refine ⟨?_, key, ?_, ?_⟩
  · intro z
    by_cases hz : 1 ≤ |z|
    · simp [generate_position_sizing, PFloat.fge, PFloat.fabs, fle_fin_one, hz]
    · simp [generate_position_sizing, PFloat.fge, PFloat.fabs, fle_fin_one, hz]
  · intro a b ha hab hb3
    gcongr
  · intro z hz
    have h1 : 1 ≤ |z| := le_trans (by norm_num) hz
    rw [key z h1, min_eq_right hz]
    norm_num

/-- Witness for C3 at concrete z-scores `2`, the interval `[1, 2]`, and `-5`. -/
theorem generate_position_sizing_spec_witness :
    generate_position_sizing (.fin 2 1) = some (.fin (min |(2 : ℚ)| 3 / 3) 1) ∧
    min (1 : ℚ) 3 / 3 ≤ min (2 : ℚ) 3 / 3 ∧
    generate_position_sizing (.fin (-5) 1) = some (.fin 1 1) :=
  ⟨generate_position_sizing_spec.2.1 2 (by norm_num),
   generate_position_sizing_spec.2.2.1 1 2 (by norm_num) (by norm_num) (by norm_num),
   generate_position_sizing_spec.2.2.2 (-5) (by norm_num)⟩

/-- **C10.** A `nan` z-score (as produced by the `0/0` of a constant spread
series) falls through every comparison in the classification chain, so the
signal is Neutral for every alert threshold, and no position-size
recommendation is produced (`abs(nan) >= 1.0` is false). -/
theorem nan_zscore_is_neutral_and_unsized :
    (∀ alert_threshold : ℚ,
      check_trading_signals alert_threshold PFloat.nan = Signal.neutral) ∧
    generate_position_sizing PFloat.nan = none :=
  ⟨fun _ => rfl, rfl⟩
abbrev RawSeries := List (ℕ × Option ℚ)

def dropna (s : RawSeries) : List (ℕ × ℚ) :=
  s.filterMap (fun p => Option.map (fun v => (p.1, v)) p.2)

def lookupDate (d : ℕ) : List (ℕ × ℚ) → Option ℚ
  | [] => none
  | p :: rest => if p.1 = d then some p.2 else lookupDate d rest

def alignData (s1 s2 : RawSeries) : List (ℕ × ℚ × ℚ) :=
  (dropna s1).filterMap (fun p =>
    Option.map (fun v2 => (p.1, p.2, v2)) (lookupDate p.1 (dropna s2)))

lemma lookupDate_isSome (d : ℕ) (l : List (ℕ × ℚ)) :
    (lookupDate d l).isSome ↔ d ∈ l.map Prod.fst := by
  induction l with
  | nil => simp [lookupDate]
  | cons p rest ih =>
    by_cases h : p.1 = d
    · simp [lookupDate, h]
    · simp only [lookupDate, if_neg h, ih, List.map_cons, List.mem_cons]
      constructor
      · exact Or.inr
      · rintro (h2 | h2)
        · exact absurd h2.symm h
        · exact h2

lemma dropna_keys_sublist (s : RawSeries) :
    ((dropna s).map Prod.fst).Sublist (s.map Prod.fst) := by
  induction s with
  | nil => simp [dropna]
  | cons p rest ih =>
    cases hv : p.2 with
    | none => simpa [dropna, hv] using ih.cons p.1
    | some v => simpa [dropna, hv] using ih.cons₂ p.1

lemma length_filterMap_eq_countP {α β : Type} (f : α → Option β) (l : List α) :
    (l.filterMap f).length = l.countP (fun a => (f a).isSome) := by
  induction l with
  | nil => simp
  | cons a rest ih =>
    cases hf : f a with
    | none => simp [List.filterMap_cons, hf, List.countP_cons, ih]
    | some b => simp [List.filterMap_cons, hf, List.countP_cons, ih]

lemma alignData_length (s1 s2 : RawSeries) (h1 : (s1.map Prod.fst).Nodup) :
    (alignData s1 s2).length =
      (((dropna s1).map Prod.fst).toFinset ∩ ((dropna s2).map Prod.fst).toFinset).card := by
  have hnd : ((dropna s1).map Prod.fst).Nodup := (dropna_keys_sublist s1).nodup h1
  rw [alignData, length_filterMap_eq_countP]
  have step1 : ((dropna s1).countP
        (fun p => (Option.map (fun v2 => (p.1, p.2, v2)) (lookupDate p.1 (dropna s2))).isSome))
      = (dropna s1).countP (fun p => decide (p.1 ∈ (dropna s2).map Prod.fst)) := by
    apply List.countP_congr
    intro p _
    simp [Option.isSome_map, lookupDate_isSome]
  rw [step1]
  have step2 : (dropna s1).countP (fun p => decide (p.1 ∈ (dropna s2).map Prod.fst))
      = ((dropna s1).map Prod.fst).countP (fun d => decide (d ∈ (dropna s2).map Prod.fst)) := by
    rw [List.countP_map]
    rfl
  rw [step2, List.countP_eq_length_filter,
    ← List.toFinset_card_of_nodup (hnd.filter _), List.toFinset_filter]
  congr 1
  ext d
  simp [Finset.mem_filter, Finset.mem_inter, List.mem_toFinset]

/-- The two failure modes of `download_data`: the upstream fetch raising or
returning unusable data (`dataSource`), and fewer than 100 aligned rows
(`insufficientData`, the `ValueError("Insufficient data points for
analysis")` of line 79).  The source catches either, prints the error and
returns `None`; the embedding keeps the cause. -/
inductive DownloadError where
  | dataSource : DownloadError
  | insufficientData : DownloadError
deriving DecidableEq, Repr

/-- `ForexPairsMonitor.download_data` (lines 50–86).  The yfinance fetch is an
external collaborator, modelled as an oracle argument: `none` when the fetch
itself fails, `some (s1, s2)` the two raw `Close` series (date, value-or-null).
The code drops nulls per series, inner-joins on date, and raises when fewer
than 100 aligned rows remain. -/
def download_data (fetch : Option (RawSeries × RawSeries)) :
    Except DownloadError (List (ℕ × ℚ × ℚ)) :=
  match fetch with
  | none => .error .dataSource
  | some (s1, s2) =>
    if (alignData s1 s2).length < 100 then .error .insufficientData
    else .ok (alignData s1 s2)

/-- **C6.** For input series with unique dates whose overlap (dates present
with non-null values in both series) has at least 100 elements, the Aligner
succeeds and its output length equals the size of that overlap. -/
theorem aligner_length_counts_overlap (s1 s2 : RawSeries)
    (h1 : (s1.map Prod.fst).Nodup)
    (hlen : 100 ≤ (((dropna s1).map Prod.fst).toFinset
      ∩ ((dropna s2).map Prod.fst).toFinset).card) :
    download_data (some (s1, s2)) = .ok (alignData s1 s2) ∧
    (alignData s1 s2).length =
      (((dropna s1).map Prod.fst).toFinset
        ∩ ((dropna s2).map Prod.fst).toFinset).card := by
  have hl := alignData_length s1 s2 h1
  have hno : ¬ (alignData s1 s2).length < 100 := by
    rw [hl]; omega
  exact ⟨by simp [download_data, hno], hl⟩

/-- A 100-day fetch with identical dates on both sides, used as the C6
witness. -/
def fullSeries : RawSeries := (List.range 100).map (fun i => (i, some (1 : ℚ)))

set_option maxRecDepth 40000 in
/-- Witness for C6: two fully overlapping 100-point series. -/
theorem aligner_length_counts_overlap_witness :
    download_data (some (fullSeries, fullSeries)) =
      .ok (alignData fullSeries fullSeries) ∧
    (alignData fullSeries fullSeries).length =
      (((dropna fullSeries).map Prod.fst).toFinset
        ∩ ((dropna fullSeries).map Prod.fst).toFinset).card :=
  aligner_length_counts_overlap fullSeries fullSeries (by decide) (by decide)

/-- Sum of the `CADJPY` column of the aligned table. -/
def xsum (a : List (ℕ × ℚ × ℚ)) : ℚ := (a.map (fun p => p.2.1)).sum

/-- Sum of the `NZDJPY` column of the aligned table. -/
def ysum (a : List (ℕ × ℚ × ℚ)) : ℚ := (a.map (fun p => p.2.2)).sum

/-- Sum of the products `CADJPY * NZDJPY`. -/
def xysum (a : List (ℕ × ℚ × ℚ)) : ℚ := (a.map (fun p => p.2.1 * p.2.2)).sum

/-- Sum of the squares of the `CADJPY` column. -/
def x2sum (a : List (ℕ × ℚ × ℚ)) : ℚ := (a.map (fun p => p.2.1 * p.2.1)).sum

/-- Denominator `n·Σx² - (Σx)²` of the least-squares slope. -/
def olsDenom (a : List (ℕ × ℚ × ℚ)) : ℚ :=
  (a.length : ℚ) * x2sum a - xsum a * xsum a

/-- The slope of `sm.OLS(nzdjpy, add_constant(cadjpy)).fit()` (line 121):
`self.hedge_ratio = model.params['CADJPY']` (line 124), in closed form
`(n·Σxy - Σx·Σy) / (n·Σx² - (Σx)²)`.  `IsOLSFit` below proves this closed
form satisfies the least-squares normal equations whenever `olsDenom ≠ 0`. -/
def hedge_ratio (a : List (ℕ × ℚ × ℚ)) : ℚ :=
  ((a.length : ℚ) * xysum a - xsum a * ysum a) / olsDenom a

/-- The fitted intercept `model.params['const']` (line 125):
`(Σy - β·Σx) / n`. -/
def intercept (a : List (ℕ × ℚ × ℚ)) : ℚ :=
  (ysum a - hedge_ratio a * xsum a) / (a.length : ℚ)

/-- Line 129: `spread = nzdjpy - self.hedge_ratio * cadjpy` — the intercept
is NOT subtracted. -/
def spread (a : List (ℕ × ℚ × ℚ)) : List ℚ :=
  a.map (fun p => p.2.2 - hedge_ratio a * p.2.1)

/-- `pandas.Series.mean()`: the sum over the full window divided by `n`. -/
def listMean (l : List ℚ) : ℚ := l.sum / (l.length : ℚ)

/-- The square of `pandas.Series.std()` (sample variance, `ddof = 1`):
`Σ (s - mean)² / (n - 1)` over the full window.  The code stores
`self.spread_std = √(this)`; since that square root is irrational in general,
the embedding carries the variance and takes the root only inside the `PFloat`
denotation (`fin d v` denotes `d / √v`).  (For `n ≤ 1` pandas returns `NaN`
where this rational form gives `0/0 = 0`; the pipeline only reaches this code
with `n ≥ 100`.) -/
def listVar (l : List ℚ) : ℚ :=
  ((l.map (fun s => (s - listMean l) ^ 2)).sum) / ((l.length : ℚ) - 1)

/-- `self.spread_mean = spread.mean()` (line 130). -/
def spread_mean (a : List (ℕ × ℚ × ℚ)) : ℚ := listMean (spread a)

/-- The square of `self.spread_std = spread.std()` (line 131). -/
def spread_var (a : List (ℕ × ℚ × ℚ)) : ℚ := listVar (spread a)

/-- Spec-side characterization of "the fitted OLS coefficient" (§4.2): the
least-squares normal equations for `y ≈ α + β·x` — the residuals sum to zero
and are orthogonal to `x`. -/
def IsOLSFit (a : List (ℕ × ℚ × ℚ)) (alpha beta : ℚ) : Prop :=
  (a.map (fun p => p.2.2 - alpha - beta * p.2.1)).sum = 0 ∧
  (a.map (fun p => p.2.1 * (p.2.2 - alpha - beta * p.2.1))).sum = 0

lemma resid_sum (a : List (ℕ × ℚ × ℚ)) (alpha beta : ℚ) :
    (a.map (fun p => p.2.2 - alpha - beta * p.2.1)).sum
      = ysum a - (a.length : ℚ) * alpha - beta * xsum a := by
  induction a with
  | nil => simp [ysum, xsum]
  | cons p rest ih =>
    simp only [List.map_cons, List.sum_cons, ysum, xsum, List.length_cons] at *
    rw [ih]
    push_cast
    ring

lemma resid_xsum (a : List (ℕ × ℚ × ℚ)) (alpha beta : ℚ) :
    (a.map (fun p => p.2.1 * (p.2.2 - alpha - beta * p.2.1))).sum
      = xysum a - alpha * xsum a - beta * x2sum a := by
  induction a with
  | nil => simp [xysum, xsum, x2sum]
  | cons p rest ih =>
    simp only [List.map_cons, List.sum_cons, xysum, xsum, x2sum, List.length_cons] at *
    rw [ih]
    ring

lemma length_pos_of_olsDenom (a : List (ℕ × ℚ × ℚ)) (h : olsDenom a ≠ 0) :
    a ≠ [] := by
  rintro rfl
  simp [olsDenom, xsum, x2sum] at h

/-- **C4.** For every aligned table whose regression is non-degenerate
(`olsDenom ≠ 0`): the spread at every aligned row is
`NZDJPY - hedge_ratio * CADJPY` — the fitted intercept is not subtracted;
the hedge ratio together with the reported intercept genuinely solves the
least-squares normal equations; and the spread's mean and (squared) standard
deviation are computed over the full window. -/
theorem spread_is_residual_without_intercept (a : List (ℕ × ℚ × ℚ))
    (h : olsDenom a ≠ 0) :
    (∀ i (hi : i < a.length),
      (spread a).get ⟨i, by simpa [spread] using hi⟩ =
        (a.get ⟨i, hi⟩).2.2 - hedge_ratio a * (a.get ⟨i, hi⟩).2.1) ∧
    IsOLSFit a (intercept a) (hedge_ratio a) ∧
    (spread a).length = a.length ∧
    spread_mean a = (spread a).sum / (a.length : ℚ) ∧
    spread_var a =
      ((spread a).map (fun s => (s - spread_mean a) ^ 2)).sum / ((a.length : ℚ) - 1) := by
  have hne : a ≠ [] := length_pos_of_olsDenom a h
  have hn : (a.length : ℚ) ≠ 0 := by
    have := List.length_pos.mpr hne
    positivity
  constructor
  · intro i hi
    simp [spread]
  refine ⟨⟨?_, ?_⟩, by simp [spread], by simp [spread_mean, listMean, spread], ?_⟩
  · rw [resid_sum, intercept]
    field_simp
  · have hβ : hedge_ratio a * olsDenom a
        = (a.length : ℚ) * xysum a - xsum a * ysum a := by
      rw [hedge_ratio]
      field_simp
    have hα : intercept a * (a.length : ℚ) = ysum a - hedge_ratio a * xsum a := by
      rw [intercept]
      field_simp
    have hD : olsDenom a = (a.length : ℚ) * x2sum a - xsum a * xsum a := rfl
    have key : (a.length : ℚ) *
        (xysum a - intercept a * xsum a - hedge_ratio a * x2sum a) = 0 := by
      linear_combination (-(xsum a)) * hα + (-1 : ℚ) * hβ + (hedge_ratio a) * hD
    rw [resid_xsum]
    rcases mul_eq_zero.mp key with hc | hc
    · exact absurd hc hn
    · linarith [hc]
  · simp [spread_var, listVar, spread_mean, spread]

/-- A concrete non-degenerate aligned table for the C4 witness:
`x = [1, 2, 3]`, `y = [2, 4, 7]` (hedge ratio `5/2`, intercept `-2/3`). -/
def sampleTable : List (ℕ × ℚ × ℚ) := [(0, 1, 2), (1, 2, 4), (2, 3, 7)]

/-- Witness for C4 at `sampleTable`. -/
theorem spread_is_residual_without_intercept_witness :
    olsDenom sampleTable ≠ 0 ∧
    IsOLSFit sampleTable (intercept sampleTable) (hedge_ratio sampleTable) :=
  have hd : olsDenom sampleTable ≠ 0 := by
    norm_num [olsDenom, sampleTable, xsum, x2sum]
  ⟨hd, (spread_is_residual_without_intercept sampleTable hd).2.1⟩

/-- `ForexPairsMonitor.calculate_zscore` (lines 146–157):
`zscore = (spread.iloc[-1] - self.spread_mean) / self.spread_std`.
The `try/except` only catches the `IndexError` of `iloc[-1]` on an empty
series (returning `None`, line 157).  The division itself is float division
with numpy warnings suppressed: when `std = 0.0` it silently produces `nan`
(`0/0`) or `±inf` — it raises nothing.  No `UndefinedZScoreError` (or any
error) exists on this path in the source.  The stored variance stands in for
`std = √variance` (see `listVar`); the finite result
`(last - mean)/√var` is the value `fin (last - mean) var`. -/
def calculate_zscore (spread_mean spread_var : ℚ) (spread : List ℚ) : Option PFloat :=
  match spread.getLast? with
  | none => none
  | some last =>
    if spread_var = 0 then
      some (if last - spread_mean = 0 then PFloat.nan
        else if 0 < last - spread_mean then PFloat.inf else PFloat.ninf)
    else some (.fin (last - spread_mean) spread_var)

lemma all_eq_zero_of_sum_eq_zero (l : List ℚ) (hpos : ∀ x ∈ l, 0 ≤ x)
    (h : l.sum = 0) : ∀ x ∈ l, x = 0 := by
  induction l with
  | nil => simp
  | cons a rest ih =>
    have ha : 0 ≤ a := hpos a (by simp)
    have hrest : ∀ x ∈ rest, 0 ≤ x := fun x hx => hpos x (by simp [hx])
    have hsum : 0 ≤ rest.sum := List.sum_nonneg hrest
    rw [List.sum_cons] at h
    have ha0 : a = 0 := by linarith
    have hr0 : rest.sum = 0 := by linarith
    intro x hx
    rcases List.mem_cons.mp hx with rfl | hx
    · exact ha0
    · exact ih hrest hr0 x hx

/-- **C1 (amended).** When the spread's sample standard deviation is zero
(equivalently, its sample variance is zero; the spread is then constant and
the latest spread equals the mean), `calculate_zscore` does not fail: the
division executes silently and returns the float `nan` (`0/0`).  No
`UndefinedZScoreError` is raised — no such error exists in the source. -/
theorem zscore_of_zero_std_is_silent_nan (a : List (ℕ × ℚ × ℚ))
    (hn : 2 ≤ a.length) (hv : spread_var a = 0) :
    calculate_zscore (spread_mean a) (spread_var a) (spread a) = some PFloat.nan := by
  have hlen : (spread a).length = a.length := by simp [spread]
  have hne : spread a ≠ [] := by
    rw [← List.length_pos, hlen]
    omega
  have hden : ((spread a).length : ℚ) - 1 ≠ 0 := by
    rw [hlen]
    have : (2 : ℚ) ≤ (a.length : ℚ) := by exact_mod_cast hn
    linarith
  have hsum : ((spread a).map (fun s => (s - listMean (spread a)) ^ 2)).sum = 0 := by
    rcases div_eq_zero_iff.mp hv with h0 | h0
    · exact h0
    · exact absurd h0 hden
  have hall := all_eq_zero_of_sum_eq_zero _
    (by
      intro x hx
      rcases List.mem_map.mp hx with ⟨s, _, rfl⟩
      positivity) hsum
  have hmem : (spread a).getLast hne ∈ spread a := List.getLast_mem hne
  have hsq : ((spread a).getLast hne - listMean (spread a)) ^ 2 = 0 :=
    hall _ (List.mem_map_of_mem _ hmem)
  have hlast : (spread a).getLast hne - spread_mean a = 0 := by
    have := pow_eq_zero_iff (n := 2) (by norm_num) |>.mp hsq
    simpa [spread_mean] using this
  rw [calculate_zscore]
  rw [List.getLast?_eq_getLast _ hne]
  simp [hv, hlast]

/-- Counterexample to **C1 as stated**: the constant spread `[5, 5, 5]` has
sample standard deviation zero, yet the z-score computation does not fail
with any error — it succeeds and returns the silent `nan` of `0/0` (so the
pipeline does produce a NaN z-score). -/
theorem zscore_zero_std_does_not_fail :
    listVar [5, 5, 5] = 0 ∧
    calculate_zscore (listMean [5, 5, 5]) (listVar [5, 5, 5]) [5, 5, 5]
      = some PFloat.nan := by
  have hvar : listVar [5, 5, 5] = 0 := by
    norm_num [listVar, listMean]
  refine ⟨hvar, ?_⟩
  have hmean : listMean [5, 5, 5] = 5 := by
    norm_num [listMean]
  simp [calculate_zscore, hvar, hmean, List.getLast?]

/-- A perfectly collinear aligned table (`y = 2·x`): its spread is constant
`[0, 0, 0]`, used as the C1 witness. -/
def collinearTable : List (ℕ × ℚ × ℚ) := [(0, 1, 2), (1, 2, 4), (2, 3, 6)]

/-- Witness for the amended C1 at `collinearTable`. -/
theorem zscore_of_zero_std_is_silent_nan_witness :
    2 ≤ collinearTable.length ∧
    spread_var collinearTable = 0 ∧
    calculate_zscore (spread_mean collinearTable) (spread_var collinearTable)
      (spread collinearTable) = some PFloat.nan :=
  have h2 : 2 ≤ collinearTable.length := by norm_num [collinearTable]
  have hv : spread_var collinearTable = 0 := by
    norm_num [spread_var, listVar, listMean, spread, hedge_ratio, olsDenom,
      collinearTable, xsum, ysum, xysum, x2sum]
  ⟨h2, hv, zscore_of_zero_std_is_silent_nan collinearTable h2 hv⟩

/-- Outcome of the statsmodels Engle–Granger `coint` call (line 95): an
external library computation, modelled as an oracle input — test statistic,
p-value and the 1%/5%/10% critical values, or `failed` when the call raises
(the except branch, lines 109–111). -/
inductive CointOutcome where
  | ok : ℚ → ℚ → (ℚ × ℚ × ℚ) → CointOutcome
  | failed : CointOutcome
deriving DecidableEq, Repr

/-- `ForexPairsMonitor.calculate_cointegration` (lines 88–111): reports
`(p_value < 0.05, score, p_value)`, or `(False, None, None)` when the library
call raises.  Purely advisory output. -/
def calculate_cointegration : CointOutcome → Bool × Option ℚ × Option ℚ
  | .ok s p _ => (decide (p < 1/20), some s, some p)
  | .failed => (false, none, none)

/-- The monitor's mutable fitted-parameter fields (`__init__`, lines 38–42),
all initially `None`.  `spread_var` carries the square of the stored
`self.spread_std` (see `listVar`). -/
structure MonitorState where
  hedge_ratio : Option ℚ
  spread_mean : Option ℚ
  spread_var : Option ℚ
  last_zscore : Option PFloat
deriving DecidableEq, Repr

/-- The state after `__init__`: every fitted parameter is `None`. -/
def initState : MonitorState := ⟨none, none, none, none⟩

/-- Everything one `run_analysis` call produces: its return value, the
monitor state afterwards, and the per-stage console output (cointegration
report, signal category, position multiplier), `none` for stages that never
ran or printed nothing. -/
structure AnalysisOutput where
  success : Bool
  state : MonitorState
  coint : Option (Bool × Option ℚ × Option ℚ)
  signal : Option Signal
  sizing : Option PFloat
deriving DecidableEq, Repr

/-- `ForexPairsMonitor.run_analysis` (lines 217–247): download & align, test
cointegration (result unused downstream), fit the regression and spread,
compute the z-score, classify, size.  The regression stage is total here:
statsmodels raises on none of these inputs (a singular fit goes through the
pseudo-inverse), so its dead `except` branch (lines 142–144) has no image in
the model.  The z-score stage returns `None` only for an empty spread, which
cannot occur after a successful download (≥ 100 rows). -/
def run_analysis (st : MonitorState) (fetch : Option (RawSeries × RawSeries))
    (coint : CointOutcome) : AnalysisOutput :=
  match download_data fetch with
  | .error _ => { success := false, state := st, coint := none,
                  signal := none, sizing := none }
  | .ok data =>
    let cointReport := calculate_cointegration coint
    let st1 : MonitorState := { st with hedge_ratio := some (hedge_ratio data),
                                        spread_mean := some (spread_mean data),
                                        spread_var := some (spread_var data) }
    match calculate_zscore (spread_mean data) (spread_var data) (spread data) with
    | none => { success := false, state := st1, coint := some cointReport,
                signal := none, sizing := none }
    | some z =>
      { success := true,
        state := { st1 with last_zscore := some z },
        coint := some cointReport,
        signal := some (check_trading_signals (4/5) z),
        sizing := generate_position_sizing z }

/-- **C5.** Whenever the aligned overlap has fewer than 100 rows, the Aligner
fails with the insufficient-data error (`ValueError("Insufficient data points
for analysis")` in the source), the cycle aborts, and no regression output is
produced: `run_analysis` returns failure with the fitted-parameter state
untouched and no signal or sizing emitted. -/
theorem insufficient_overlap_aborts_cycle (st : MonitorState)
    (s1 s2 : RawSeries) (c : CointOutcome)
    (h : (alignData s1 s2).length < 100) :
    download_data (some (s1, s2)) = .error .insufficientData ∧
    run_analysis st (some (s1, s2)) c =
      { success := false, state := st, coint := none,
        signal := none, sizing := none } := by
  have hd : download_data (some (s1, s2)) = .error .insufficientData := by
    simp [download_data, h]
  exact ⟨hd, by rw [run_analysis, hd]⟩

/-- A one-point series: overlap far below 100, used as the C5 witness. -/
def tinySeries : RawSeries := [(0, some 1)]

/-- Witness for C5: a 1-row overlap aborts the cycle with untouched state. -/
theorem insufficient_overlap_aborts_cycle_witness :
    (alignData tinySeries tinySeries).length < 100 ∧
    download_data (some (tinySeries, tinySeries)) = .error .insufficientData ∧
    run_analysis initState (some (tinySeries, tinySeries)) .failed =
      { success := false, state := initState, coint := none,
        signal := none, sizing := none } :=
  have h : (alignData tinySeries tinySeries).length < 100 := by decide
  ⟨h, insufficient_overlap_aborts_cycle initState tinySeries tinySeries .failed h⟩

/-- **C7.** The cointegration result gates nothing: two runs on the same
state and data but arbitrary different cointegration outcomes (cointegrated,
not cointegrated, test failure) return the same success flag, final state,
signal and sizing — only the advisory cointegration report differs. -/
theorem cointegration_does_not_gate (st : MonitorState)
    (fetch : Option (RawSeries × RawSeries)) (c₁ c₂ : CointOutcome) :
    (run_analysis st fetch c₁).success = (run_analysis st fetch c₂).success ∧
    (run_analysis st fetch c₁).state = (run_analysis st fetch c₂).state ∧
    (run_analysis st fetch c₁).signal = (run_analysis st fetch c₂).signal ∧
    (run_analysis st fetch c₁).sizing = (run_analysis st fetch c₂).sizing := by
  rw [run_analysis, run_analysis]
  rcases download_data fetch with e | data
  · exact ⟨rfl, rfl, rfl, rfl⟩
  · cases hz : calculate_zscore (spread_mean data) (spread_var data) (spread data) with
    | none => simp [hz]
    | some z => simp [hz]

/-- **C9.** If the data fetch/alignment stage fails (the Aligner returns no
data), `run_analysis` returns failure and every fitted-parameter field of the
monitor — `hedge_ratio`, `spread_mean`, `spread_std` (carried squared) and
`last_zscore` — is exactly what it was before the cycle started. -/
theorem failed_download_leaves_state_unchanged (st : MonitorState)
    (fetch : Option (RawSeries × RawSeries)) (c : CointOutcome)
    (h : ∃ e, download_data fetch = .error e) :
    (run_analysis st fetch c).success = false ∧
    (run_analysis st fetch c).state.hedge_ratio = st.hedge_ratio ∧
    (run_analysis st fetch c).state.spread_mean = st.spread_mean ∧
    (run_analysis st fetch c).state.spread_var = st.spread_var ∧
    (run_analysis st fetch c).state.last_zscore = st.last_zscore := by
  obtain ⟨e, he⟩ := h
  rw [run_analysis, he]
  exact ⟨rfl, rfl, rfl, rfl, rfl⟩

/-- Witness for C9: a failed fetch on a monitor with previously fitted
parameters leaves all four fields as they were. -/
theorem failed_download_leaves_state_unchanged_witness :
    (run_analysis ⟨some 2, some 1, some 4, some (.fin 1 4)⟩ none .failed).success
        = false ∧
    (run_analysis ⟨some 2, some 1, some 4, some (.fin 1 4)⟩ none .failed).state.hedge_ratio
        = some 2 ∧
    (run_analysis ⟨some 2, some 1, some 4, some (.fin 1 4)⟩ none .failed).state.spread_mean
        = some 1 ∧
    (run_analysis ⟨some 2, some 1, some 4, some (.fin 1 4)⟩ none .failed).state.spread_var
        = some 4 ∧
    (run_analysis ⟨some 2, some 1, some 4, some (.fin 1 4)⟩ none .failed).state.last_zscore
        = some (.fin 1 4) :=
  failed_download_leaves_state_unchanged ⟨some 2, some 1, some 4, some (.fin 1 4)⟩
    none .failed ⟨.dataSource, rfl⟩

/-- One cycle's inputs in continuous monitoring: the fetch oracle and the
cointegration oracle for that cycle. -/
structure CycleInput where
  fetch : Option (RawSeries × RawSeries)
  coint : CointOutcome

/-- `ForexPairsMonitor.run_continuous_monitoring` (lines 249–268):
`while True: success = run_analysis(); print(...); time.sleep(interval_minutes * 60)`.
Modelled on an arbitrary finite prefix of cycles (the loop runs until an
external interrupt): threads the monitor state through the cycles and records,
per cycle, the success flag and the seconds slept before the next attempt.
Both branches of the `if success` only print; the sleep that follows is
unconditional and identical. -/
def run_continuous_monitoring (interval_minutes : ℕ) (st : MonitorState) :
    List CycleInput → MonitorState × List (Bool × ℕ)
  | [] => (st, [])
  | c :: rest =>
    let out := run_analysis st c.fetch c.coint
    let next := run_continuous_monitoring interval_minutes out.state rest
    (next.1, (out.success, interval_minutes * 60) :: next.2)

/-- **C8.** In continuous monitoring every cycle produces exactly one trace
entry — a failed cycle is caught and logged, never crashes the loop, and the
loop goes on to the next cycle — and after every cycle, successful or failed,
the wait before the next attempt is exactly `interval_minutes * 60` seconds:
no exponential backoff, no fast retry. -/
theorem every_cycle_waits_normal_interval (interval_minutes : ℕ)
    (st : MonitorState) (cycles : List CycleInput) :
    (run_continuous_monitoring interval_minutes st cycles).2.length
        = cycles.length ∧
    (run_continuous_monitoring interval_minutes st cycles).2.map Prod.snd
        = List.replicate cycles.length (interval_minutes * 60) := by
  induction cycles generalizing st with
  | nil => exact ⟨rfl, rfl⟩
  | cons c rest ih =>
    obtain ⟨ih1, ih2⟩ := ih (run_analysis st c.fetch c.coint).state
    constructor
    · simpa [run_continuous_monitoring] using ih1
    · simpa [run_continuous_monitoring, List.replicate_succ] using ih2
